import Mathlib

/-!
Verification development for the client-facing core of the rgb-node
repository: the confidential-seal subsystem (`Outcoins::seal_definition`,
the allocation text codecs), the disk-backed stash store
(`DiskStorage`), and the request/reply client operations
(`Runtime::issue/transfer/sync/outpoint_assets`).

The Rust code is shallowly embedded: machine integers become `Nat`
(with explicit bounds where overflow matters), strings become
`List Char`, the filesystem becomes an explicit association list from
path to byte content, and the thread-local secure random source is an
injected entropy parameter, following the design note that shared
randomness should be modelled as an injected capability.
-/

namespace RgbNode

/-- A transaction id (`lnpbp::bitcoin::Txid`). The core only ever moves
it between its hex text form and an opaque value, so it is embedded as
its 64-character lowercase-hex representation. -/
abbrev Txid := List Char

/-- `AccountingValue` is `f32` in the source; amounts are embedded as
exact rationals (float rounding is outside the claims checked here,
none of which computes with an amount). -/
abbrev AccountingValue := ℚ

/-- `Outcoins` from `contracts/fungible/data/outcoins.rs`: a plain
allocation of an amount to an output index with an optional
transaction id (`txid: Option<Txid>`). -/
structure Outcoins where
  coins : AccountingValue
  vout : Nat
  txid : Option Txid
deriving DecidableEq, Repr

/-- `Outcoincealed`: a concealed allocation of an amount to a one-way
seal commitment (`OutpointHash`), embedded like `Txid` as its
64-character lowercase-hex form. -/
structure Outcoincealed where
  coins : AccountingValue
  seal_confidential : List Char
deriving DecidableEq, Repr

/-- `lnpbp::rgb::SealDefinition`, restricted to the two variants the
core constructs: a fully revealed outpoint
(`TxOutpoint(OutpointReveal { blinding, txid, vout })`) or a
witness-transaction output (`WitnessVout { vout, blinding }`). The
blinding factor is the `u64` drawn from the RNG. -/
inductive SealDefinition where
  | TxOutpoint (blinding : Nat) (txid : Txid) (vout : Nat)
  | WitnessVout (vout : Nat) (blinding : Nat)
deriving DecidableEq, Repr

namespace SealDefinition

/-- The blinding factor carried by either seal variant. -/
def blindingOf : SealDefinition → Nat
  | .TxOutpoint b _ _ => b
  | .WitnessVout _ b => b

/-- The output index carried by either seal variant. -/
def voutOf : SealDefinition → Nat
  | .TxOutpoint _ _ v => v
  | .WitnessVout v _ => v

/-- The transaction id carried by the seal, when fully specified. -/
def txidOf : SealDefinition → Option Txid
  | .TxOutpoint _ t _ => some t
  | .WitnessVout _ _ => none

end SealDefinition

/-- `Outcoins::seal_definition`. The source draws
`entropy = rng.next_u64()` from the thread-local secure RNG and then
matches on `self.txid`; the RNG draw is embedded as the `entropy`
argument. -/
def Outcoins.seal_definition (self : Outcoins) (entropy : Nat) : SealDefinition :=
  match self.txid with
  | some txid => .TxOutpoint entropy txid self.vout
  | none => .WitnessVout self.vout entropy

/-! ## Disk-backed stash store (`rgbkit/storage.rs`)

The filesystem is embedded as an association list from path to byte
content; the single-writer assumption of the concurrency model makes
this exact for the store's check-then-act sequences. -/

/-- The filesystem: a finite map from file path to byte content. -/
abbrev FS := List (String × List Nat)

/-- Read a whole file: `none` when the path does not exist. -/
def fsRead : FS → String → Option (List Nat)
  | [], _ => none
  | (p, b) :: rest, q => if p = q then some b else fsRead rest q

/-- `Path::exists`. -/
def fsExists (fs : FS) (p : String) : Bool :=
  (fsRead fs p).isSome

/-- Drop every entry at a path. -/
def fsErase : FS → String → FS
  | [], _ => []
  | (p, b) :: rest, q => if p = q then fsErase rest q else (p, b) :: fsErase rest q

/-- Write a whole file, replacing any previous content at the path. -/
def fsWrite (fs : FS) (p : String) (b : List Nat) : FS :=
  (p, b) :: fsErase fs p

/-- `fs::remove_file`: fails (with an io `NotFound` error) when the
path does not exist, otherwise removes it. -/
def fsRemove (fs : FS) (p : String) : Option FS :=
  if fsExists fs p then some (fsErase fs p) else none

/-- Modelled from the spec: `Schema` (from the external `lnpbp` crate)
is opaque to the core beyond being hashable and (de)serializable, so it
is embedded as its byte content. -/
structure Schema where
  content : List Nat
deriving DecidableEq, Repr

/-- Modelled from the spec: `Genesis`, opaque like `Schema`. -/
structure Genesis where
  content : List Nat
deriving DecidableEq, Repr

/-- A fixed-length (32-byte) content hash, the identifier of a stored
record. -/
abbrev RecordId := List Nat

/-- Modelled from the spec: the fixed-length content hash of a record
(`SchemaId`/`ContractId` in `lnpbp`); embedded as a simple executable
32-byte digest — the claims need only that it is a function of the
content. -/
def contentHash (bytes : List Nat) : RecordId :=
  (List.range 32).map fun i =>
    bytes.foldl (fun a b => (a * 131 + b + i) % 256) (i % 256)

/-- `Schema::schema_id()`. -/
def Schema.schema_id (s : Schema) : RecordId := contentHash s.content

/-- `Genesis::contract_id()`. -/
def Genesis.contract_id (g : Genesis) : RecordId := contentHash g.content

/-- A byte as two lowercase hex characters. -/
def byteHex (b : Nat) : List Char :=
  [Nat.digitChar (b / 16 % 16), Nat.digitChar (b % 16)]

/-- `to_hex` of a record id: lowercase hex of its bytes. -/
def idHex (id : RecordId) : String :=
  String.mk (id.map byteHex).flatten

/-- `DiskStorageConfig { data_dir }`. -/
structure DiskStorageConfig where
  data_dir : String
deriving DecidableEq, Repr

namespace DiskStorageConfig

/-- `DiskStorageConfig::RGB_EXTENSION`. -/
def RGB_EXTENSION : String := "rgb"

/-- `DiskStorageConfig::schema_filename`:
`<data_dir>/schemata/<hex(id)>.rgb`. -/
def schema_filename (cfg : DiskStorageConfig) (id : RecordId) : String :=
  cfg.data_dir ++ "/schemata/" ++ idHex id ++ "." ++ RGB_EXTENSION

/-- `DiskStorageConfig::genesis_filename`:
`<data_dir>/geneses/<hex(id)>.rgb`. -/
def genesis_filename (cfg : DiskStorageConfig) (id : RecordId) : String :=
  cfg.data_dir ++ "/geneses/" ++ idHex id ++ "." ++ RGB_EXTENSION

end DiskStorageConfig

/-- Modelled from the spec: the deterministic binary serialization
(`StrictEncode`, via `write_file`) of an opaque record; embedded with a
length prefix so that decoding genuinely validates its input. -/
def strictEncodeBytes (r : List Nat) : List Nat :=
  r.length :: r

/-- Modelled from the spec: the matching deserialization
(`StrictDecode`, via `read_file`); `none` is a decoding failure,
distinct from "not found". -/
def strictDecodeBytes : List Nat → Option (List Nat)
  | [] => none
  | n :: rest => if rest.length = n then some rest else none

/-- The error kinds of `InteroperableError` the store claims exercise:
an io `NotFound` on an absent file, and a binary-decoding failure on a
malformed file. -/
inductive StoreError where
  | notFound
  | encoding
deriving DecidableEq, Repr

namespace DiskStorage

/-- `DiskStorage::add_schema`: compute the record's filename from its
content hash, remember whether it already existed, write the encoded
record as a whole file, and return the prior-existence flag. -/
def add_schema (cfg : DiskStorageConfig) (fs : FS) (schema : Schema) :
    Bool × FS :=
  let filename := cfg.schema_filename schema.schema_id
  let already := fsExists fs filename
  (already, fsWrite fs filename (strictEncodeBytes schema.content))

/-- `DiskStorage::schema`: read and decode the file named by the id;
an absent file is `NotFound`, a malformed one a decoding error. -/
def schema (cfg : DiskStorageConfig) (fs : FS) (id : RecordId) :
    Except StoreError Schema :=
  match fsRead fs (cfg.schema_filename id) with
  | none => .error .notFound
  | some bytes =>
    match strictDecodeBytes bytes with
    | none => .error .encoding
    | some content => .ok ⟨content⟩

/-- `DiskStorage::has_schema`. -/
def has_schema (cfg : DiskStorageConfig) (fs : FS) (id : RecordId) : Bool :=
  fsExists fs (cfg.schema_filename id)

/-- `DiskStorage::remove_schema`: record whether the file exists, then
`fs::remove_file` it (which fails with `NotFound` on an absent file),
and return the recorded flag. -/
def remove_schema (cfg : DiskStorageConfig) (fs : FS) (id : RecordId) :
    Except StoreError (Bool × FS) :=
  let filename := cfg.schema_filename id
  let existed := fsExists fs filename
  match fsRemove fs filename with
  | none => .error .notFound
  | some fs' => .ok (existed, fs')

/-- `DiskStorage::add_genesis`, mirroring `add_schema`. -/
def add_genesis (cfg : DiskStorageConfig) (fs : FS) (genesis : Genesis) :
    Bool × FS :=
  let filename := cfg.genesis_filename genesis.contract_id
  let already := fsExists fs filename
  (already, fsWrite fs filename (strictEncodeBytes genesis.content))

/-- `DiskStorage::genesis`, mirroring `schema`. -/
def genesis (cfg : DiskStorageConfig) (fs : FS) (id : RecordId) :
    Except StoreError Genesis :=
  match fsRead fs (cfg.genesis_filename id) with
  | none => .error .notFound
  | some bytes =>
    match strictDecodeBytes bytes with
    | none => .error .encoding
    | some content => .ok ⟨content⟩

/-- `DiskStorage::has_genesis`. -/
def has_genesis (cfg : DiskStorageConfig) (fs : FS) (id : RecordId) : Bool :=
  fsExists fs (cfg.genesis_filename id)

/-- `DiskStorage::remove_genesis`, mirroring `remove_schema`. -/
def remove_genesis (cfg : DiskStorageConfig) (fs : FS) (id : RecordId) :
    Except StoreError (Bool × FS) :=
  let filename := cfg.genesis_filename id
  let existed := fsExists fs filename
  match fsRemove fs filename with
  | none => .error .notFound
  | some fs' => .ok (existed, fs')

end DiskStorage

/-! ## Allocation text forms (`outcoins.rs`, `FromStr` impls)

Rust strings are embedded as `List Char`. The anchored regexes of the
two `from_str` implementations are deterministic (no character can
belong to two adjacent pieces), so they are embedded as direct
left-to-right matchers. -/

/-- ASCII `0`–`9`. -/
def isDigitChar (c : Char) : Bool :=
  48 ≤ c.toNat && c.toNat ≤ 57

/-- The regex class `[a-f\d]`, after lowercasing. -/
def isLowerHexChar (c : Char) : Bool :=
  isDigitChar c || (97 ≤ c.toNat && c.toNat ≤ 102)

/-- The amount separator characters `,`, `_` and the apostrophe. -/
def isSepChar (c : Char) : Bool :=
  c = ',' || c = '_' || c = Char.ofNat 39

/-- The regex class `[\d.,_']` of the `coins` capture group. -/
def isCoinsChar (c : Char) : Bool :=
  isDigitChar c || c = '.' || isSepChar c

/-- `char::to_ascii_lowercase`. -/
def asciiLowerChar (c : Char) : Char :=
  if 65 ≤ c.toNat && c.toNat ≤ 90 then Char.ofNat (c.toNat + 32) else c

/-- `str::to_ascii_lowercase`. -/
def asciiLower (s : List Char) : List Char :=
  s.map asciiLowerChar

/-- The capture groups of the `Outcoins` regex
`^([\d.,_']+)@(([a-f\d]{64}):)(\d+)$` on an (already lowercased)
input: the `coins`, `txid` and `vout` groups. The `txid` group is not
optional in the pattern, so a successful match always populates it;
the `Option` mirrors `Captures::name` as the Rust code consumes it. -/
def outcoinsCaptures (s : List Char) :
    Option (List Char × Option (List Char) × List Char) :=
  let coins := s.takeWhile isCoinsChar
  let rest := s.dropWhile isCoinsChar
  if coins.isEmpty then none
  else
    match rest with
    | [] => none
    | a :: r =>
      if a = '@' then
        let hex := r.take 64
        let tl := r.drop 64
        if hex.length = 64 && hex.all isLowerHexChar then
          match tl with
          | [] => none
          | b :: ds =>
            if b = ':' then
              if !ds.isEmpty && ds.all isDigitChar then some (coins, some hex, ds)
              else none
            else none
        else none
      else none

/-- The capture groups of the `Outcoincealed` regex
`^([\d.,_']+)@(([a-f\d]{64}))$`. -/
def outcoincealedCaptures (s : List Char) :
    Option (List Char × List Char) :=
  let coins := s.takeWhile isCoinsChar
  let rest := s.dropWhile isCoinsChar
  if coins.isEmpty then none
  else
    match rest with
    | [] => none
    | a :: r =>
      if a = '@' then
        if r.length = 64 && r.all isLowerHexChar then some (coins, r) else none
      else none

/-- Numeric value of an ASCII digit. -/
def charToDigit (c : Char) : Nat :=
  c.toNat - 48

/-- Value of a big-endian digit string. -/
def charsToNat (cs : List Char) : Nat :=
  cs.foldl (fun a c => a * 10 + charToDigit c) 0

/-- `str::parse::<u32>` on a regex-validated digit string: the value,
unless it overflows a `u32`. -/
def parseU32 (cs : List Char) : Option Nat :=
  if charsToNat cs < 2 ^ 32 then some (charsToNat cs) else none

/-- `str::parse::<f32>` restricted to the `coins` capture charset
`[\d.,_']`: Rust's float grammar rejects the `,`/`_`/`'` separators and
a second `.`; accepted forms are `digits`, `digits.`, `.digits` and
`digits.digits`. The numeric value is taken exactly (as a rational);
`f32` rounding is not modelled, and no checked claim computes with it. -/
def parseAccounting (cs : List Char) : Option AccountingValue :=
  if cs.any isSepChar then none
  else
    let d1 := cs.takeWhile isDigitChar
    let rest := cs.dropWhile isDigitChar
    match rest with
    | [] => if d1.isEmpty then none else some (charsToNat d1 : ℚ)
    | a :: d2 =>
      if a = '.' then
        if d1.isEmpty && d2.isEmpty then none
        else if d2.all isDigitChar then
          some ((charsToNat d1 : ℚ) + (charsToNat d2 : ℚ) / (10 : ℚ) ^ d2.length)
        else none
      else none

/-- `impl FromStr for Outcoins`: lowercase the input, match the
anchored regex, then parse the three captured fields; any failure is
the single generic `ParseError` (embedded as `none`). The txid-absent
constructor arm of the source's `match` is kept. -/
def Outcoins.from_str (s : List Char) : Option Outcoins :=
  match outcoinsCaptures (asciiLower s) with
  | some (amount, some txid, vout) => do
    let coins ← parseAccounting amount
    let v ← parseU32 vout
    pure ⟨coins, v, some txid⟩
  | some (amount, none, vout) => do
    let coins ← parseAccounting amount
    let v ← parseU32 vout
    pure ⟨coins, v, none⟩
  | none => none

/-- `impl FromStr for Outcoincealed`. -/
def Outcoincealed.from_str (s : List Char) : Option Outcoincealed :=
  match outcoincealedCaptures (asciiLower s) with
  | some (amount, sealHex) => do
    let coins ← parseAccounting amount
    pure ⟨coins, sealHex⟩
  | none => none

/-- Little-endian digit characters of `n` (`fuel`-bounded structural
recursion; `fuel ≥ n` suffices). -/
def natCharsAux : Nat → Nat → List Char
  | 0, _ => []
  | _ + 1, 0 => []
  | fuel + 1, n + 1 =>
    Nat.digitChar ((n + 1) % 10) :: natCharsAux fuel ((n + 1) / 10)

/-- Decimal digit characters of `n`, most significant first. -/
def natChars (n : Nat) : List Char :=
  if n = 0 then ['0'] else (natCharsAux n n).reverse

/-- Fractional decimal expansion of `num / den` (`num < den`),
`fuel`-bounded. -/
def fracChars : Nat → Nat → Nat → List Char
  | 0, _, _ => []
  | _ + 1, 0, _ => []
  | fuel + 1, num + 1, den =>
    Nat.digitChar ((num + 1) * 10 / den) :: fracChars fuel ((num + 1) * 10 % den) den

/-- The `Debug` form of an `f32` amount (for the value classes the
claims evaluate: sign, integer digits, `.`, fractional digits — `1.0`
style for whole numbers, as Rust prints). -/
def renderQDebug (q : ℚ) : List Char :=
  let a := |q|
  let ipart := a.num.toNat / a.den
  let fracnum := a.num.toNat % a.den
  (if q < 0 then ['-'] else []) ++ natChars ipart ++
    '.' :: (if fracnum = 0 then ['0'] else fracChars a.den fracnum a.den)

/-- The `Display` implementation of `Outcoins` is
`#[derive(Display)] #[display(Debug)]`: it renders the derived `Debug`
format `Outcoins { coins: …, vout: …, txid: … }`, not the
`<amount>@<txid>:<vout>` text form. -/
def Outcoins.display (o : Outcoins) : List Char :=
  "Outcoins \x7b coins: ".toList ++ renderQDebug o.coins ++
    ", vout: ".toList ++ natChars o.vout ++
    ", txid: ".toList ++
    (match o.txid with
     | none => "None".toList
     | some t => "Some(".toList ++ t ++ [')']) ++
    " \x7d".toList

/-- The `Display` implementation of `Outcoincealed`, likewise the
derived `Debug` format. -/
def Outcoincealed.display (c : Outcoincealed) : List Char :=
  "Outcoincealed \x7b coins: ".toList ++ renderQDebug c.coins ++
    ", seal_confidential: ".toList ++ c.seal_confidential ++
    " \x7d".toList

/-- Left-pad a digit string with `'0'` to `k` characters. -/
def padZeros (k : Nat) (ds : List Char) : List Char :=
  List.replicate (k - ds.length) '0' ++ ds

/-- The canonical decimal numeral `n.m` with `k` fractional digits
(just `n` when `k = 0`). -/
def renderAmountDec (n m k : Nat) : List Char :=
  if k = 0 then natChars n else natChars n ++ '.' :: padZeros k (natChars m)

/-- Modelled from the spec (refinement reference): the canonical text
form `<amount>@<txid>:<vout>` of a plain allocation whose amount is the
decimal numeral `n` + `m`/10^`k`. The source has no such renderer — its
`Display` is the `Debug` derive — so this follows the spec's words, for
comparison with the code's parser. -/
def outcoinsCanonicalText (n m k : Nat) (t : Txid) (vout : Nat) : List Char :=
  renderAmountDec n m k ++ '@' :: t ++ ':' :: natChars vout

/-- Modelled from the spec (refinement reference): the canonical text
form `<amount>@<seal-hash>` of a concealed allocation. -/
def outcoincealedCanonicalText (n m k : Nat) (sealHex : List Char) : List Char :=
  renderAmountDec n m k ++ '@' :: sealHex

/-! ## Request/reply client and transfer workflow (`i9n/fungible.rs`)

The transport (`Runtime::command`: encode request, one blocking
send/receive, unmarshall) is strict one-request/one-reply by
construction, so each operation is embedded as a pure function of the
backend's injected `Reply`. -/

/-- A `bitcoin::OutPoint`. -/
structure OutPoint where
  txid : Txid
  vout : Nat
deriving DecidableEq, Repr

/-- One output map of a partially signed transaction: its
key-derivation metadata (`hd_keypaths`, each key embedded as its
serialized bytes, in map order) and its proprietary key map, keyed by
(namespace tag, sub-type, key data). -/
structure PsbtOutput where
  hd_keypaths : List (List Nat)
  proprietary : List ((List Nat × Nat × List Nat) × List Nat)
deriving DecidableEq, Repr

/-- The transaction template (`PartiallySignedTransaction`), reduced to
the per-output maps the workflow touches. -/
structure Psbt where
  outputs : List PsbtOutput
deriving DecidableEq, Repr

/-- Modelled from the spec: `lnpbp::rgb::PSBT_OUT_PUBKEY`, the fixed
sub-type identifying "commitment public key"; its numeric value lives
in the external crate and the claims use it only as that fixed
constant. -/
def PSBT_OUT_PUBKEY : Nat := 1

/-- The bytes of the namespace tag `b"RGB"`. -/
def rgbTag : List Nat := [82, 71, 66]

/-- `ProprietaryKeyMap::insert_proprietary_key`: map-insert the value
under the (namespace tag, sub-type, key data) proprietary key. -/
def insert_proprietary_key (output : PsbtOutput) (nsTag : List Nat)
    (subType : Nat) (keyData : List Nat) (val : List Nat) : PsbtOutput :=
  { output with
    proprietary := ((nsTag, subType, keyData), val) ::
      output.proprietary.filter (fun e => !(e.1 = (nsTag, subType, keyData))) }

/-- One iteration of the transfer workflow's output loop: if the output
carries key-derivation metadata, inject the commitment key (namespace
`b"RGB"`, sub-type `PSBT_OUT_PUBKEY`, no key data, value the bytes of
the first known public key); otherwise leave it unchanged and emit a
warning (`true`). -/
def commitmentKeyStep (output : PsbtOutput) : PsbtOutput × Bool :=
  match output.hd_keypaths.head? with
  | some key => (insert_proprietary_key output rgbTag PSBT_OUT_PUBKEY [] key, false)
  | none => (output, true)

/-- The transfer workflow's output loop, applied to every output of the
template. -/
def transferProcessOutputs (outputs : List PsbtOutput) : List PsbtOutput :=
  outputs.map fun o => (commitmentKeyStep o).1

/-- The indices for which the loop emitted the no-key-information
warning (and proceeded). -/
def transferWarnings (outputs : List PsbtOutput) : List Nat :=
  (List.range outputs.length).filter fun i =>
    (outputs.getD i ⟨[], []⟩).hd_keypaths.isEmpty

/-- The destination of an `Invoice`: a concealed-seal reference
(`BlindedUtxo(OutpointHash)`) or a chain address. -/
inductive Outpoint where
  | BlindedUtxo (outpoint_hash : List Char)
  | Address (address : String)
deriving DecidableEq, Repr

/-- `Invoice`, with the fields the transfer workflow consumes. -/
structure Invoice where
  contract_id : RecordId
  outpoint : Outpoint
  amount : AccountingValue
deriving DecidableEq, Repr

/-- The `i9n::Error` kinds the client operations produce, plus the
spec's unsupported-operation kind. `reply` carries the backend's
failure message; `unexpectedResponse` is the protocol-mismatch error;
`unsupported` is modelled from the spec (§7 names an
unsupported-operation error kind, e.g. for an address-based invoice
destination) and is never constructed by the embedded code. -/
inductive ClientError where
  | reply (failmsg : String)
  | unexpectedResponse
  | unsupported (what : String)
deriving DecidableEq, Repr

/-- How a Rust call can fail: by returning an error value, or by
panicking (`unimplemented!()` aborts the process without returning). -/
inductive RustAbort where
  | panic (msg : String)
  | err (e : ClientError)
deriving DecidableEq, Repr

/-- Whether a transfer-assembly outcome is a returned error value (as
opposed to a success or a panic). -/
def isErrOutcome {α : Type} : Except RustAbort α → Bool
  | .error (.err _) => true
  | _ => false

/-- `TransferApi`: the request the transfer workflow submits. -/
structure TransferApi where
  psbt : Psbt
  contract_id : RecordId
  inputs : List OutPoint
  ours : List Outcoins
  theirs : List Outcoincealed
deriving DecidableEq, Repr

/-- The assembling half of `Runtime::transfer` (before the backend
call): resolve the invoice destination — a `BlindedUtxo` is taken
directly, an `Address` hits `unimplemented!()`, i.e. a panic — run the
commitment-key loop over the (already base64-decoded and deserialized)
template's outputs, and build the `TransferApi` request with exactly
one counterparty concealed allocation from the invoice's amount and
the resolved seal. -/
def transferRequest (inputs : List OutPoint) (allocate : List Outcoins)
    (invoice : Invoice) (psbt : Psbt) : Except RustAbort TransferApi :=
  match invoice.outpoint with
  | .Address _ => .error (.panic "not implemented")
  | .BlindedUtxo seal_confidential =>
    .ok
      { psbt := { psbt with outputs := transferProcessOutputs psbt.outputs }
        contract_id := invoice.contract_id
        inputs := inputs
        ours := allocate
        theirs := [⟨invoice.amount, seal_confidential⟩] }

/-- The tagged `Reply` union, with the payload shapes the checked
operations consume; further shapes behave like any other non-matching
variant. -/
inductive Reply where
  | Success
  | Failure (failmsg : String)
  | Sync (data : List Nat)
  | Assets (data : List Nat)
  | Transfer (consignment : List Nat) (psbt : Psbt)
  | Genesis (data : List Nat)
deriving DecidableEq, Repr

/-- Modelled from the spec: the chain-standard binary encoding of a
transaction template (`consensus_encode`), external to the core; the
claims use it only as a function of the template. -/
def psbtConsensusEncode (psbt : Psbt) : List Nat :=
  psbt.outputs.length ::
    (psbt.outputs.map fun o => o.hd_keypaths.length :: o.hd_keypaths.flatten).flatten

namespace Runtime

/-- The reply match of `Runtime::issue`: `Success` maps to `Ok(())`,
`Failure` to `Error::Reply`, anything else to
`Error::UnexpectedResponse`. -/
def issueReply : Reply → Except ClientError Unit
  | .Success => .ok ()
  | .Failure failmsg => .error (.reply failmsg)
  | _ => .error .unexpectedResponse

/-- The reply match of `Runtime::sync`. -/
def syncReply : Reply → Except ClientError (List Nat)
  | .Sync data => .ok data
  | .Failure failmsg => .error (.reply failmsg)
  | _ => .error .unexpectedResponse

/-- The reply match of `Runtime::outpoint_assets`. -/
def assetsReply : Reply → Except ClientError (List Nat)
  | .Assets data => .ok data
  | .Failure failmsg => .error (.reply failmsg)
  | _ => .error .unexpectedResponse

/-- The settling half of `Runtime::transfer`: a `Failure` reply maps to
`Error::Reply`; a `Transfer` reply writes the consignment (strict
encoding) and the re-encoded template to the caller's paths and
succeeds; any other reply shape is `Error::UnexpectedResponse`. -/
def transferReply (consignment_file transaction_file : String) (fs : FS) :
    Reply → Except ClientError FS
  | .Failure failure => .error (.reply failure)
  | .Transfer consignment psbt =>
    .ok (fsWrite (fsWrite fs consignment_file (strictEncodeBytes consignment))
      transaction_file (psbtConsensusEncode psbt))
  | _ => .error .unexpectedResponse

end Runtime

/-! ## Theorems -/

/-- `Nat.digitChar` inverts `charToDigit` on decimal digits. -/
theorem charToDigit_digitChar : ∀ d, d < 10 → charToDigit (Nat.digitChar d) = d := by
  decide

/-- `Nat.digitChar` of a decimal digit is an ASCII digit. -/
theorem isDigitChar_digitChar : ∀ d, d < 10 → isDigitChar (Nat.digitChar d) = true := by
  decide

/-- A pointwise-fixed map is the identity. -/
theorem map_eq_self_of_mem (f : Char → Char) (l : List Char)
    (h : ∀ c ∈ l, f c = c) : l.map f = l := by
  induction l with
  | nil => rfl
  | cons a l ih =>
    rw [List.map_cons, h a (by simp), ih fun c hc => h c (by simp [hc])]

/-- Lowercasing fixes any character outside `A`–`Z`. -/
theorem asciiLowerChar_eq_self (c : Char) (h : c.toNat < 65 ∨ 90 < c.toNat) :
    asciiLowerChar c = c := by
  have hc : ¬((65 ≤ c.toNat && c.toNat ≤ 90) = true) := by
    simp only [Bool.and_eq_true, decide_eq_true_eq, not_and]
    omega
  simp [asciiLowerChar, hc]

/-- Numeric range of an ASCII digit. -/
theorem isDigitChar_range (c : Char) (h : isDigitChar c = true) :
    48 ≤ c.toNat ∧ c.toNat ≤ 57 := by
  simpa [isDigitChar, Bool.and_eq_true, decide_eq_true_eq] using h

/-- Lowercasing fixes ASCII digits. -/
theorem asciiLowerChar_digit (c : Char) (h : isDigitChar c = true) :
    asciiLowerChar c = c := by
  have := isDigitChar_range c h
  exact asciiLowerChar_eq_self c (by omega)

/-- Lowercasing fixes the lowercase-hex class. -/
theorem asciiLowerChar_lowerHex (c : Char) (h : isLowerHexChar c = true) :
    asciiLowerChar c = c := by
  simp only [isLowerHexChar, Bool.or_eq_true] at h
  rcases h with h | h
  · exact asciiLowerChar_digit c h
  · simp only [Bool.and_eq_true, decide_eq_true_eq] at h
    exact asciiLowerChar_eq_self c (by omega)

/-- An ASCII digit is not an amount separator. -/
theorem isSepChar_false_of_digit (c : Char) (h : isDigitChar c = true) :
    isSepChar c = false := by
  cases hsep : isSepChar c
  · rfl
  · exfalso
    simp only [isSepChar, Bool.or_eq_true, decide_eq_true_eq] at hsep
    rcases hsep with (rfl | rfl) | rfl <;> exact absurd h (by decide)

/-- An ASCII digit is in the coins charset. -/
theorem isCoinsChar_of_digit (c : Char) (h : isDigitChar c = true) :
    isCoinsChar c = true := by
  simp [isCoinsChar, h]

/-- `takeWhile`/`dropWhile` stop exactly at the first failing
character. -/
theorem takeWhile_append_stop (p : Char → Bool) (xs : List Char) (y : Char)
    (ys : List Char) (hxs : ∀ a ∈ xs, p a = true) (hy : p y = false) :
    (xs ++ y :: ys).takeWhile p = xs ∧ (xs ++ y :: ys).dropWhile p = y :: ys := by
  induction xs with
  | nil => simp [List.takeWhile_cons, List.dropWhile_cons, hy]
  | cons a l ih =>
    have ha := hxs a (by simp)
    have ih' := ih fun b hb => hxs b (by simp [hb])
    simp [List.takeWhile_cons, List.dropWhile_cons, ha, ih'.1, ih'.2]

/-- `takeWhile`/`dropWhile` on an all-satisfying list. -/
theorem takeWhile_of_all (p : Char → Bool) (l : List Char)
    (h : ∀ a ∈ l, p a = true) :
    l.takeWhile p = l ∧ l.dropWhile p = [] := by
  induction l with
  | nil => simp
  | cons a l ih =>
    have ha := h a (by simp)
    have ih' := ih fun b hb => h b (by simp [hb])
    simp [List.takeWhile_cons, List.dropWhile_cons, ha, ih'.1, ih'.2]

/-- Appending one digit multiplies the accumulated value by ten. -/
theorem charsToNat_append_singleton (ys : List Char) (c : Char) :
    charsToNat (ys ++ [c]) = charsToNat ys * 10 + charToDigit c := by
  simp [charsToNat, List.foldl_append]

/-- The digit expansion evaluates back to its number. -/
theorem charsToNat_natCharsAux (fuel : Nat) :
    ∀ n, n ≤ fuel → charsToNat (natCharsAux fuel n).reverse = n := by
  induction fuel with
  | zero =>
    intro n h
    interval_cases n
    simp [natCharsAux, charsToNat]
  | succ f ih =>
    intro n h
    match n with
    | 0 => simp [natCharsAux, charsToNat]
    | n + 1 =>
      have hq : (n + 1) / 10 ≤ f := by
        have := Nat.div_lt_self (Nat.succ_pos n) (by omega : 1 < 10)
        omega
      simp only [natCharsAux, List.reverse_cons]
      rw [charsToNat_append_singleton, ih _ hq,
        charToDigit_digitChar _ (Nat.mod_lt _ (by omega))]
      omega

/-- `charsToNat` inverts `natChars`. -/
theorem charsToNat_natChars (n : Nat) : charsToNat (natChars n) = n := by
  unfold natChars
  split
  · subst n
    decide
  · exact charsToNat_natCharsAux n n le_rfl

/-- Every character of the digit expansion is an ASCII digit. -/
theorem natCharsAux_digits (fuel : Nat) :
    ∀ n, ∀ c ∈ natCharsAux fuel n, isDigitChar c = true := by
  induction fuel with
  | zero => intro n c hc; simp [natCharsAux] at hc
  | succ f ih =>
    intro n c hc
    match n with
    | 0 => simp [natCharsAux] at hc
    | n + 1 =>
      simp only [natCharsAux, List.mem_cons] at hc
      rcases hc with rfl | hc
      · exact isDigitChar_digitChar _ (Nat.mod_lt _ (by omega))
      · exact ih _ c hc

/-- Every character of `natChars n` is an ASCII digit. -/
theorem natChars_digits (n : Nat) : ∀ c ∈ natChars n, isDigitChar c = true := by
  intro c hc
  unfold natChars at hc
  split at hc
  · simp at hc
    subst hc
    decide
  · rw [List.mem_reverse] at hc
    exact natCharsAux_digits n n c hc

/-- `natChars n` is never empty. -/
theorem natChars_ne_nil (n : Nat) : natChars n ≠ [] := by
  unfold natChars
  split
  · simp
  · next h =>
    obtain ⟨m, rfl⟩ := Nat.exists_eq_succ_of_ne_zero h
    simp [natCharsAux]

/-- Digit count bound for the expansion. -/
theorem natCharsAux_length_le (fuel : Nat) :
    ∀ n k, n < 10 ^ k → (natCharsAux fuel n).length ≤ k := by
  induction fuel with
  | zero => intro n k _; simp [natCharsAux]
  | succ f ih =>
    intro n k h
    match n with
    | 0 => simp [natCharsAux]
    | n + 1 =>
      have hk : k ≠ 0 := by
        rintro rfl
        simp at h
      obtain ⟨k', rfl⟩ := Nat.exists_eq_succ_of_ne_zero hk
      have hdiv : (n + 1) / 10 < 10 ^ k' := by
        rw [Nat.div_lt_iff_lt_mul (by omega)]
        calc n + 1 < 10 ^ (k' + 1) := h
        _ = 10 ^ k' * 10 := by ring
      have := ih ((n + 1) / 10) k' hdiv
      simp only [natCharsAux, List.length_cons]
      omega

/-- `natChars n` has at most `k` digits when `n < 10 ^ k` (`k ≥ 1`). -/
theorem natChars_length_le (n k : Nat) (h : n < 10 ^ k) (hk : 1 ≤ k) :
    (natChars n).length ≤ k := by
  unfold natChars
  split
  · simpa
  · rw [List.length_reverse]
    exact natCharsAux_length_le n n k h

/-- Leading zeros do not change the numeric value. -/
theorem charsToNat_replicate_zero (j : Nat) (ds : List Char) :
    charsToNat (List.replicate j '0' ++ ds) = charsToNat ds := by
  induction j with
  | zero => simp
  | succ i ih =>
    simp only [List.replicate_succ, List.cons_append]
    show List.foldl _ (0 * 10 + charToDigit '0') _ = _
    have : 0 * 10 + charToDigit '0' = 0 := by decide
    rw [this]
    exact ih

/-- `charsToNat` ignores the zero padding. -/
theorem charsToNat_padZeros (k : Nat) (ds : List Char) :
    charsToNat (padZeros k ds) = charsToNat ds :=
  charsToNat_replicate_zero _ ds

/-- The padded digit string has exactly `k` characters. -/
theorem padZeros_length (k : Nat) (ds : List Char) (h : ds.length ≤ k) :
    (padZeros k ds).length = k := by
  simp [padZeros]
  omega

/-- The padded digit string is all digits when `ds` is. -/
theorem padZeros_digits (k : Nat) (ds : List Char)
    (h : ∀ c ∈ ds, isDigitChar c = true) :
    ∀ c ∈ padZeros k ds, isDigitChar c = true := by
  intro c hc
  simp only [padZeros, List.mem_append, List.mem_replicate] at hc
  rcases hc with ⟨_, rfl⟩ | hc
  · decide
  · exact h c hc

/-- Reading just-written content back at the same path. -/
theorem fsRead_fsWrite (fs : FS) (p : String) (b : List Nat) :
    fsRead (fsWrite fs p b) p = some b := by
  simp [fsWrite, fsRead]

/-- Erasing a path removes it. -/
theorem fsRead_fsErase (fs : FS) (p : String) :
    fsRead (fsErase fs p) p = none := by
  induction fs with
  | nil => simp [fsErase, fsRead]
  | cons hd tl ih =>
    obtain ⟨q, b⟩ := hd
    by_cases h : q = p <;> simp [fsErase, fsRead, h, ih]

/-- C1: with a transaction id present, `seal_definition` yields a fully
specified `TxOutpoint` seal with that txid, the input's vout and the
drawn blinding factor; with no transaction id it yields a `WitnessVout`
seal carrying only the input's vout and the blinding factor. -/
theorem seal_definition_cases (o : Outcoins) (entropy : Nat) :
    (∀ t, o.txid = some t →
      o.seal_definition entropy = .TxOutpoint entropy t o.vout) ∧
    (o.txid = none →
      o.seal_definition entropy = .WitnessVout o.vout entropy) := by
  constructor
  · intro t h
    simp [Outcoins.seal_definition, h]
  · intro h
    simp [Outcoins.seal_definition, h]

/-- Closed instantiation of `seal_definition_cases` at concrete
allocations in both branches. -/
theorem seal_definition_cases_witness :
    (Outcoins.mk 100 2 (some (List.replicate 64 'a'))).seal_definition 7
        = .TxOutpoint 7 (List.replicate 64 'a') 2 ∧
    (Outcoins.mk 50 0 none).seal_definition 9 = .WitnessVout 0 9 := by
  refine ⟨?_, ?_⟩
  · exact (seal_definition_cases (Outcoins.mk 100 2 (some (List.replicate 64 'a'))) 7).1
      (List.replicate 64 'a') rfl
  · exact (seal_definition_cases (Outcoins.mk 50 0 none) 9).2 rfl

/-- C2: the blinding factor of the produced seal is exactly the fresh
entropy drawn from the secure random source — it does not depend on the
amount, the output index or the txid — so two calls whose independent
random draws differ produce different blinding factors, whatever their
(possibly identical) allocation inputs. -/
theorem seal_definition_blinding_fresh (o o' : Outcoins) (e e' : Nat)
    (h : e ≠ e') :
    (o.seal_definition e).blindingOf = e ∧
    (o.seal_definition e).blindingOf ≠ (o'.seal_definition e').blindingOf := by
  have hb : ∀ (x : Outcoins) (n : Nat), (x.seal_definition n).blindingOf = n := by
    intro x n
    cases hx : x.txid <;> simp [Outcoins.seal_definition, hx, SealDefinition.blindingOf]
  refine ⟨hb o e, ?_⟩
  rw [hb o e, hb o' e']
  exact h

/-- Closed instantiation of `seal_definition_blinding_fresh`: the same
plain allocation revealed twice with distinct random draws yields
distinct blinding factors. -/
theorem seal_definition_blinding_fresh_witness :
    ((Outcoins.mk 100 2 none).seal_definition 3).blindingOf = 3 ∧
    ((Outcoins.mk 100 2 none).seal_definition 3).blindingOf ≠
      ((Outcoins.mk 100 2 none).seal_definition 4).blindingOf :=
  seal_definition_blinding_fresh (Outcoins.mk 100 2 none) (Outcoins.mk 100 2 none)
    3 4 (by decide)

/-- C3: inserting a schema (resp. genesis) record into the disk store
and then fetching it by its content-hash id returns a record equal to
the one inserted. -/
theorem store_add_then_read_roundtrip (cfg : DiskStorageConfig) (fs : FS)
    (s : Schema) (g : Genesis) :
    DiskStorage.schema cfg (DiskStorage.add_schema cfg fs s).2 s.schema_id
        = .ok s ∧
    DiskStorage.genesis cfg (DiskStorage.add_genesis cfg fs g).2 g.contract_id
        = .ok g := by
  constructor
  · simp [DiskStorage.schema, DiskStorage.add_schema, fsRead_fsWrite,
      strictEncodeBytes, strictDecodeBytes]
  · simp [DiskStorage.genesis, DiskStorage.add_genesis, fsRead_fsWrite,
      strictEncodeBytes, strictDecodeBytes]

/-- C4: removing an absent schema (resp. genesis) record fails with
`NotFound`; removing a present one succeeds, reports `true` (it
existed), and actually deletes the file. -/
theorem store_remove_reports_truthfully (cfg : DiskStorageConfig) (fs : FS)
    (id : RecordId) :
    (fsExists fs (cfg.schema_filename id) = false →
      DiskStorage.remove_schema cfg fs id = .error .notFound) ∧
    (fsExists fs (cfg.schema_filename id) = true →
      DiskStorage.remove_schema cfg fs id = .ok (true, fsErase fs (cfg.schema_filename id)) ∧
      fsExists (fsErase fs (cfg.schema_filename id)) (cfg.schema_filename id) = false) ∧
    (fsExists fs (cfg.genesis_filename id) = false →
      DiskStorage.remove_genesis cfg fs id = .error .notFound) ∧
    (fsExists fs (cfg.genesis_filename id) = true →
      DiskStorage.remove_genesis cfg fs id = .ok (true, fsErase fs (cfg.genesis_filename id)) ∧
      fsExists (fsErase fs (cfg.genesis_filename id)) (cfg.genesis_filename id) = false) := by
  refine ⟨?_, ?_, ?_, ?_⟩
  · intro h
    simp [DiskStorage.remove_schema, fsRemove, h]
  · intro h
    simp only [fsExists] at h
    simp [DiskStorage.remove_schema, fsRemove, fsExists, h, fsRead_fsErase]
  · intro h
    simp [DiskStorage.remove_genesis, fsRemove, h]
  · intro h
    simp only [fsExists] at h
    simp [DiskStorage.remove_genesis, fsRemove, fsExists, h, fsRead_fsErase]

/-- Closed instantiation of `store_remove_reports_truthfully`: on an
empty filesystem removal fails with `NotFound`; with exactly the
record's file present it returns `.ok (true, _)` and deletes it. -/
theorem store_remove_reports_truthfully_witness :
    DiskStorage.remove_schema ⟨"/data"⟩ [] (List.replicate 32 0)
        = .error .notFound ∧
    DiskStorage.remove_schema ⟨"/data"⟩
        [(DiskStorageConfig.schema_filename ⟨"/data"⟩ (List.replicate 32 0), [0])]
        (List.replicate 32 0)
      = .ok (true, fsErase
          [(DiskStorageConfig.schema_filename ⟨"/data"⟩ (List.replicate 32 0), [0])]
          (DiskStorageConfig.schema_filename ⟨"/data"⟩ (List.replicate 32 0))) ∧
    DiskStorage.remove_genesis ⟨"/data"⟩ [] (List.replicate 32 1)
        = .error .notFound := by
  refine ⟨?_, ?_, ?_⟩
  · exact (store_remove_reports_truthfully ⟨"/data"⟩ [] (List.replicate 32 0)).1
      (by decide)
  · exact ((store_remove_reports_truthfully ⟨"/data"⟩
      [(DiskStorageConfig.schema_filename ⟨"/data"⟩ (List.replicate 32 0), [0])]
      (List.replicate 32 0)).2.1 (by decide)).1
  · exact (store_remove_reports_truthfully ⟨"/data"⟩ [] (List.replicate 32 1)).2.2.1
      (by decide)

/-- C10: a successful `remove_schema`/`remove_genesis` always carries
`true`: the existence check precedes the file removal, and an absent
file makes the removal itself fail, so `Ok(false)` is unreachable. -/
theorem store_remove_ok_means_existed (cfg : DiskStorageConfig) (fs fs' : FS)
    (id : RecordId) (b : Bool) :
    (DiskStorage.remove_schema cfg fs id = .ok (b, fs') → b = true) ∧
    (DiskStorage.remove_genesis cfg fs id = .ok (b, fs') → b = true) := by
  constructor
  · intro h
    by_cases hx : fsExists fs (cfg.schema_filename id)
    · simp [DiskStorage.remove_schema, fsRemove, hx] at h
      exact h.1
    · simp [DiskStorage.remove_schema, fsRemove, hx] at h
  · intro h
    by_cases hx : fsExists fs (cfg.genesis_filename id)
    · simp [DiskStorage.remove_genesis, fsRemove, hx] at h
      exact h.1
    · simp [DiskStorage.remove_genesis, fsRemove, hx] at h

/-- Closed instantiation of `store_remove_ok_means_existed` at a
one-file filesystem where removal succeeds. -/
theorem store_remove_ok_means_existed_witness :
    (true : Bool) = true ∧ (true : Bool) = true := by
  constructor
  · exact (store_remove_ok_means_existed ⟨"/d"⟩
      [(DiskStorageConfig.schema_filename ⟨"/d"⟩ (List.replicate 32 2), [7])]
      (fsErase [(DiskStorageConfig.schema_filename ⟨"/d"⟩ (List.replicate 32 2), [7])]
        (DiskStorageConfig.schema_filename ⟨"/d"⟩ (List.replicate 32 2)))
      (List.replicate 32 2) true).1 (by rfl)
  · exact (store_remove_ok_means_existed ⟨"/d"⟩
      [(DiskStorageConfig.genesis_filename ⟨"/d"⟩ (List.replicate 32 3), [7])]
      (fsErase [(DiskStorageConfig.genesis_filename ⟨"/d"⟩ (List.replicate 32 3), [7])]
        (DiskStorageConfig.genesis_filename ⟨"/d"⟩ (List.replicate 32 3)))
      (List.replicate 32 3) true).2 (by rfl)

/-- Lowercasing fixes the whole coins charset. -/
theorem asciiLowerChar_coins (c : Char) (h : isCoinsChar c = true) :
    asciiLowerChar c = c := by
  simp only [isCoinsChar, Bool.or_eq_true] at h
  rcases h with (h | h) | h
  · exact asciiLowerChar_digit c h
  · simp only [decide_eq_true_eq] at h
    subst h
    decide
  · simp only [isSepChar, Bool.or_eq_true, decide_eq_true_eq] at h
    rcases h with (rfl | rfl) | rfl <;> decide

/-- Every character of the canonical amount numeral is in the coins
charset. -/
theorem renderAmountDec_coins_chars (n m k : Nat) :
    ∀ c ∈ renderAmountDec n m k, isCoinsChar c = true := by
  intro c hc
  unfold renderAmountDec at hc
  split at hc
  · exact isCoinsChar_of_digit c (natChars_digits n c hc)
  · simp only [List.mem_append, List.mem_cons] at hc
    rcases hc with hc | rfl | hc
    · exact isCoinsChar_of_digit c (natChars_digits n c hc)
    · decide
    · exact isCoinsChar_of_digit c (padZeros_digits _ _ (natChars_digits m) c hc)

/-- The canonical amount numeral is never empty. -/
theorem renderAmountDec_ne_nil (n m k : Nat) : renderAmountDec n m k ≠ [] := by
  unfold renderAmountDec
  split
  · exact natChars_ne_nil n
  · intro h
    exact natChars_ne_nil n (List.append_eq_nil.mp h).1

/-- The `Outcoins` regex on a well-formed canonical string captures its
three components. -/
theorem outcoinsCaptures_canonical (A t ds : List Char)
    (hA1 : A ≠ []) (hA2 : ∀ c ∈ A, isCoinsChar c = true)
    (ht1 : t.length = 64) (ht2 : ∀ c ∈ t, isLowerHexChar c = true)
    (hds1 : ds ≠ []) (hds2 : ∀ c ∈ ds, isDigitChar c = true) :
    outcoinsCaptures (A ++ '@' :: (t ++ ':' :: ds)) = some (A, some t, ds) := by
  obtain ⟨hT, hD⟩ :=
    takeWhile_append_stop isCoinsChar A '@' (t ++ ':' :: ds) hA2 (by decide)
  have hAe : A.isEmpty = false := by
    cases A with
    | nil => exact absurd rfl hA1
    | cons a l => rfl
  have htake : (t ++ ':' :: ds).take 64 = t := by
    rw [← ht1]
    exact List.take_left t (':' :: ds)
  have hdrop : (t ++ ':' :: ds).drop 64 = ':' :: ds := by
    rw [← ht1]
    exact List.drop_left t (':' :: ds)
  have hdse : ds.isEmpty = false := by
    cases ds with
    | nil => exact absurd rfl hds1
    | cons a l => rfl
  simp only [outcoinsCaptures, hT, hD, hAe, htake, hdrop]
  simp [ht1, List.all_eq_true, hdse]
  exact ⟨ht2, hds2⟩

/-- The `Outcoincealed` regex on a well-formed canonical string
captures its two components. -/
theorem outcoincealedCaptures_canonical (A r : List Char)
    (hA1 : A ≠ []) (hA2 : ∀ c ∈ A, isCoinsChar c = true)
    (hr1 : r.length = 64) (hr2 : ∀ c ∈ r, isLowerHexChar c = true) :
    outcoincealedCaptures (A ++ '@' :: r) = some (A, r) := by
  obtain ⟨hT, hD⟩ := takeWhile_append_stop isCoinsChar A '@' r hA2 (by decide)
  have hAe : A.isEmpty = false := by
    cases A with
    | nil => exact absurd rfl hA1
    | cons a l => rfl
  simp only [outcoincealedCaptures, hT, hD, hAe]
  simp [hr1, List.all_eq_true]
  exact hr2

/-- `natChars n` is never empty, `isEmpty` form. -/
theorem natChars_isEmpty_false (n : Nat) : (natChars n).isEmpty = false := by
  cases hcn : natChars n with
  | nil => exact absurd hcn (natChars_ne_nil n)
  | cons a l => rfl

/-- The embedded `f32` parse recovers the canonical decimal numeral's
value. -/
theorem parseAccounting_renderAmountDec (n m k : Nat) (hm : m < 10 ^ k) :
    parseAccounting (renderAmountDec n m k) =
      some ((n : ℚ) + (m : ℚ) / (10 : ℚ) ^ k) := by
  rcases Nat.eq_zero_or_pos k with rfl | hk
  · have hm0 : m = 0 := by omega
    subst hm0
    have hsep : (natChars n).any isSepChar = false := by
      rw [List.any_eq_false]
      intro c hc
      simp [isSepChar_false_of_digit c (natChars_digits n c hc)]
    obtain ⟨hT, hD⟩ := takeWhile_of_all isDigitChar (natChars n) (natChars_digits n)
    have hr : renderAmountDec n 0 0 = natChars n := by simp [renderAmountDec]
    rw [hr]
    simp only [parseAccounting, hsep, hT, hD, natChars_isEmpty_false,
      Bool.false_eq_true, if_false]
    rw [charsToNat_natChars]
    norm_num
  · have hkne : k ≠ 0 := by omega
    have hA : renderAmountDec n m k = natChars n ++ '.' :: padZeros k (natChars m) := by
      rw [renderAmountDec, if_neg hkne]
    have hd2 := padZeros_digits k (natChars m) (natChars_digits m)
    have hlen : (padZeros k (natChars m)).length = k :=
      padZeros_length k (natChars m) (natChars_length_le m k hm hk)
    have hsep : (natChars n ++ '.' :: padZeros k (natChars m)).any isSepChar = false := by
      rw [List.any_eq_false]
      intro c hc
      simp only [List.mem_append, List.mem_cons] at hc
      rcases hc with hc | rfl | hc
      · simp [isSepChar_false_of_digit c (natChars_digits n c hc)]
      · decide
      · simp [isSepChar_false_of_digit c (hd2 c hc)]
    obtain ⟨hT, hD⟩ := takeWhile_append_stop isDigitChar (natChars n) '.'
      (padZeros k (natChars m)) (natChars_digits n) (by decide)
    rw [hA]
    simp only [parseAccounting, hsep, hT, hD, natChars_isEmpty_false,
      Bool.false_eq_true, if_false, List.all_eq_true]
    simp [natChars_isEmpty_false, charsToNat_natChars, charsToNat_padZeros, hlen]
    exact hd2

/-- A successful regex match always populates the txid capture group:
the group is not optional in the pattern. -/
theorem outcoinsCaptures_txid_isSome (s a : List Char)
    (tc : Option (List Char)) (v : List Char)
    (h : outcoinsCaptures s = some (a, tc, v)) : tc.isSome = true := by
  simp only [outcoinsCaptures] at h
  repeat' split at h
  all_goals try simp_all
  obtain ⟨-, htc, -⟩ := h
  rw [← htc]
  rfl

/-- C9: any value `Outcoins::from_str` produces carries `txid =
Some(_)`; the txid-absent ("witness") construction branch of the parser
is unreachable because the regex makes the 64-hex-character txid group
mandatory. -/
theorem from_str_txid_always_some (s : List Char) (o : Outcoins)
    (h : Outcoins.from_str s = some o) : o.txid.isSome = true := by
  unfold Outcoins.from_str at h
  cases hc : outcoinsCaptures (asciiLower s) with
  | none =>
    rw [hc] at h
    cases h
  | some trip =>
    obtain ⟨a, tc, v⟩ := trip
    rw [hc] at h
    cases tc with
    | none =>
      have := outcoinsCaptures_txid_isSome _ _ _ _ hc
      simp at this
    | some t =>
      have h' : Option.bind (parseAccounting a)
          (fun coins => Option.bind (parseU32 v)
            (fun v' => some (Outcoins.mk coins v' (some t)))) = some o := h
      rw [Option.bind_eq_some] at h'
      obtain ⟨coins, -, h2⟩ := h'
      rw [Option.bind_eq_some] at h2
      obtain ⟨v', -, h3⟩ := h2
      cases h3
      rfl

/-- Closed instantiation of `from_str_txid_always_some`: parsing the
canonical string `100@<64×a>:2` yields a value with a present txid. -/
theorem from_str_txid_always_some_witness :
    (Outcoins.mk 100 2 (some (List.replicate 64 'a'))).txid.isSome = true :=
  from_str_txid_always_some
    ('1' :: '0' :: '0' :: '@' :: (List.replicate 64 'a' ++ [':', '2']))
    (Outcoins.mk 100 2 (some (List.replicate 64 'a'))) (by decide)

/-- The `Outcoins` parser rejects any string whose first character is
outside the coins charset (after lowercasing). -/
theorem from_str_head_not_coins (c : Char) (l : List Char)
    (h : isCoinsChar (asciiLowerChar c) = false) :
    Outcoins.from_str (c :: l) = none := by
  have hcap : outcoinsCaptures (asciiLower (c :: l)) = none := by
    simp only [asciiLower, List.map_cons, outcoinsCaptures, List.takeWhile_cons, h]
    simp
  unfold Outcoins.from_str
  rw [hcap]

/-- The `Outcoincealed` parser likewise rejects such strings. -/
theorem concealed_from_str_head_not_coins (c : Char) (l : List Char)
    (h : isCoinsChar (asciiLowerChar c) = false) :
    Outcoincealed.from_str (c :: l) = none := by
  have hcap : outcoincealedCaptures (asciiLower (c :: l)) = none := by
    simp only [asciiLower, List.map_cons, outcoincealedCaptures, List.takeWhile_cons, h]
    simp
  unfold Outcoincealed.from_str
  rw [hcap]

/-- The code's `Display` (the `Debug` derive) of an `Outcoins` never
parses back: it starts with `O`, which the regex rejects. -/
theorem from_str_display_none (o : Outcoins) :
    Outcoins.from_str (Outcoins.display o) = none := by
  have hlit : ("Outcoins \x7b coins: ".toList : List Char)
      = 'O' :: "utcoins \x7b coins: ".toList := by decide
  unfold Outcoins.display
  rw [hlit]
  simp only [List.cons_append, List.append_assoc]
  exact from_str_head_not_coins 'O' _ (by decide)

/-- The `Debug`-derived `Display` of an `Outcoincealed` never parses
back either. -/
theorem concealed_from_str_display_none (c : Outcoincealed) :
    Outcoincealed.from_str (Outcoincealed.display c) = none := by
  have hlit : ("Outcoincealed \x7b coins: ".toList : List Char)
      = 'O' :: "utcoincealed \x7b coins: ".toList := by decide
  unfold Outcoincealed.display
  rw [hlit]
  simp only [List.cons_append, List.append_assoc]
  exact concealed_from_str_head_not_coins 'O' _ (by decide)

/-- C7 (counterexample): rendering a concrete `Outcoins` (resp.
`Outcoincealed`) with the code's text rendering — the `Debug`-derived
`Display` — and parsing the result fails, for both allocation kinds:
the claimed render-then-parse round trip does not hold as stated. -/
theorem display_then_parse_fails :
    Outcoins.from_str
        (Outcoins.display ⟨100, 2, some (List.replicate 64 'a')⟩) = none ∧
    Outcoincealed.from_str
        (Outcoincealed.display ⟨100, List.replicate 64 'b'⟩) = none := by
  constructor
  · exact from_str_display_none ⟨100, 2, some (List.replicate 64 'a')⟩
  · exact concealed_from_str_display_none ⟨100, List.replicate 64 'b'⟩

/-- `parseU32` on an in-range rendered index. -/
theorem parseU32_natChars (vout : Nat) (hv : vout < 2 ^ 32) :
    parseU32 (natChars vout) = some vout := by
  simp [parseU32, charsToNat_natChars, hv]
  omega

/-- C7 (amended): the code's rendering — the `Debug`-derived `Display`
— always fails to parse back, for both allocation kinds; parsing the
spec's canonical text form `<amount>@<txid>:<vout>` (resp.
`<amount>@<seal-hash>`) built from a value's fields reproduces every
field of the value (no blinding factor is involved: neither type
carries one). -/
theorem allocation_text_forms (o : Outcoins) (c : Outcoincealed)
    (n m k vout : Nat) (t sealHex : List Char)
    (hm : m < 10 ^ k) (hv : vout < 2 ^ 32)
    (ht1 : t.length = 64) (ht2 : ∀ ch ∈ t, isLowerHexChar ch = true)
    (hs1 : sealHex.length = 64) (hs2 : ∀ ch ∈ sealHex, isLowerHexChar ch = true) :
    Outcoins.from_str (Outcoins.display o) = none ∧
    Outcoincealed.from_str (Outcoincealed.display c) = none ∧
    Outcoins.from_str (outcoinsCanonicalText n m k t vout) =
      some ⟨(n : ℚ) + (m : ℚ) / (10 : ℚ) ^ k, vout, some t⟩ ∧
    Outcoincealed.from_str (outcoincealedCanonicalText n m k sealHex) =
      some ⟨(n : ℚ) + (m : ℚ) / (10 : ℚ) ^ k, sealHex⟩ := by
  refine ⟨from_str_display_none o, concealed_from_str_display_none c, ?_, ?_⟩
  · rw [show outcoinsCanonicalText n m k t vout
        = renderAmountDec n m k ++ '@' :: (t ++ ':' :: natChars vout) from by
      simp [outcoinsCanonicalText]]
    have hfix : asciiLower
        (renderAmountDec n m k ++ '@' :: (t ++ ':' :: natChars vout))
        = renderAmountDec n m k ++ '@' :: (t ++ ':' :: natChars vout) := by
      apply map_eq_self_of_mem
      intro ch hch
      simp only [List.mem_append, List.mem_cons] at hch
      rcases hch with hch | rfl | hch | rfl | hch
      · exact asciiLowerChar_coins ch (renderAmountDec_coins_chars n m k ch hch)
      · decide
      · exact asciiLowerChar_lowerHex ch (ht2 ch hch)
      · decide
      · exact asciiLowerChar_digit ch (natChars_digits vout ch hch)
    have hcap := outcoinsCaptures_canonical (renderAmountDec n m k) t
      (natChars vout) (renderAmountDec_ne_nil n m k)
      (renderAmountDec_coins_chars n m k) ht1 ht2
      (natChars_ne_nil vout) (natChars_digits vout)
    unfold Outcoins.from_str
    rw [hfix, hcap]
    have hres : Option.bind (parseAccounting (renderAmountDec n m k))
        (fun coins => Option.bind (parseU32 (natChars vout))
          (fun v' => some (Outcoins.mk coins v' (some t))))
        = some (Outcoins.mk ((n : ℚ) + (m : ℚ) / (10 : ℚ) ^ k) vout (some t)) := by
      rw [parseAccounting_renderAmountDec n m k hm, parseU32_natChars vout hv]
      rfl
    exact hres
  · rw [show outcoincealedCanonicalText n m k sealHex
        = renderAmountDec n m k ++ '@' :: sealHex from by
      simp [outcoincealedCanonicalText]]
    have hfix : asciiLower (renderAmountDec n m k ++ '@' :: sealHex)
        = renderAmountDec n m k ++ '@' :: sealHex := by
      apply map_eq_self_of_mem
      intro ch hch
      simp only [List.mem_append, List.mem_cons] at hch
      rcases hch with hch | rfl | hch
      · exact asciiLowerChar_coins ch (renderAmountDec_coins_chars n m k ch hch)
      · decide
      · exact asciiLowerChar_lowerHex ch (hs2 ch hch)
    have hcap := outcoincealedCaptures_canonical (renderAmountDec n m k)
      sealHex (renderAmountDec_ne_nil n m k)
      (renderAmountDec_coins_chars n m k) hs1 hs2
    unfold Outcoincealed.from_str
    rw [hfix, hcap]
    have hres : Option.bind (parseAccounting (renderAmountDec n m k))
        (fun coins => some (Outcoincealed.mk coins sealHex))
        = some (Outcoincealed.mk ((n : ℚ) + (m : ℚ) / (10 : ℚ) ^ k) sealHex) := by
      rw [parseAccounting_renderAmountDec n m k hm]
      rfl
    exact hres

/-- Closed instantiation of `allocation_text_forms`: the canonical
strings `100.25@<64×a>:2` and `100.25@<64×b>` parse back to exactly
the rendered fields, and the `Debug` renderings of two concrete values
do not parse. -/
theorem allocation_text_forms_witness :
    Outcoins.from_str (Outcoins.display ⟨7, 1, none⟩) = none ∧
    Outcoincealed.from_str (Outcoincealed.display ⟨7, List.replicate 64 'c'⟩) = none ∧
    Outcoins.from_str (outcoinsCanonicalText 100 25 2 (List.replicate 64 'a') 2) =
      some ⟨(100 : ℚ) + (25 : ℚ) / (10 : ℚ) ^ 2, 2, some (List.replicate 64 'a')⟩ ∧
    Outcoincealed.from_str (outcoincealedCanonicalText 100 25 2 (List.replicate 64 'b')) =
      some ⟨(100 : ℚ) + (25 : ℚ) / (10 : ℚ) ^ 2, List.replicate 64 'b'⟩ :=
  allocation_text_forms ⟨7, 1, none⟩ ⟨7, List.replicate 64 'c'⟩
    100 25 2 2 (List.replicate 64 'a') (List.replicate 64 'b')
    (by decide) (by decide) (by decide) (by decide) (by decide) (by decide)

/-- C5: each client operation accepts exactly its own success payload,
maps a `Failure` reply to an application error carrying the backend's
message, and maps every other reply shape to the protocol error
`UnexpectedResponse` — no mismatched shape is silently accepted. -/
theorem client_reply_discipline :
    (∀ r : Reply, Runtime.issueReply r = .ok () ↔ r = .Success) ∧
    (∀ m, Runtime.issueReply (.Failure m) = .error (.reply m)) ∧
    (∀ r : Reply, r ≠ .Success → (∀ m, r ≠ .Failure m) →
      Runtime.issueReply r = .error .unexpectedResponse) ∧
    (∀ (r : Reply) (d : List Nat), Runtime.syncReply r = .ok d ↔ r = .Sync d) ∧
    (∀ m, Runtime.syncReply (.Failure m) = .error (.reply m)) ∧
    (∀ r : Reply, (∀ d, r ≠ .Sync d) → (∀ m, r ≠ .Failure m) →
      Runtime.syncReply r = .error .unexpectedResponse) ∧
    (∀ (r : Reply) (d : List Nat), Runtime.assetsReply r = .ok d ↔ r = .Assets d) ∧
    (∀ m, Runtime.assetsReply (.Failure m) = .error (.reply m)) ∧
    (∀ r : Reply, (∀ d, r ≠ .Assets d) → (∀ m, r ≠ .Failure m) →
      Runtime.assetsReply r = .error .unexpectedResponse) ∧
    (∀ cf tf fs consignment psbt,
      Runtime.transferReply cf tf fs (.Transfer consignment psbt) =
        .ok (fsWrite (fsWrite fs cf (strictEncodeBytes consignment)) tf
          (psbtConsensusEncode psbt))) ∧
    (∀ cf tf fs m, Runtime.transferReply cf tf fs (.Failure m) = .error (.reply m)) ∧
    (∀ cf tf fs (r : Reply), (∀ consignment psbt, r ≠ .Transfer consignment psbt) →
      (∀ m, r ≠ .Failure m) →
      Runtime.transferReply cf tf fs r = .error .unexpectedResponse) := by
  refine ⟨?_, ?_, ?_, ?_, ?_, ?_, ?_, ?_, ?_, ?_, ?_, ?_⟩
  · intro r
    cases r <;> simp [Runtime.issueReply]
  · intro m
    rfl
  · intro r h1 h2
    cases r with
    | Success => exact absurd rfl h1
    | Failure m => exact absurd rfl (h2 m)
    | Sync d => rfl
    | Assets d => rfl
    | Transfer a b => rfl
    | Genesis d => rfl
  · intro r d
    cases r <;> simp [Runtime.syncReply]
  · intro m
    rfl
  · intro r h1 h2
    cases r with
    | Sync d => exact absurd rfl (h1 d)
    | Failure m => exact absurd rfl (h2 m)
    | Success => rfl
    | Assets d => rfl
    | Transfer a b => rfl
    | Genesis d => rfl
  · intro r d
    cases r <;> simp [Runtime.assetsReply]
  · intro m
    rfl
  · intro r h1 h2
    cases r with
    | Assets d => exact absurd rfl (h1 d)
    | Failure m => exact absurd rfl (h2 m)
    | Success => rfl
    | Sync d => rfl
    | Transfer a b => rfl
    | Genesis d => rfl
  · intro cf tf fs consignment psbt
    rfl
  · intro cf tf fs m
    rfl
  · intro cf tf fs r h1 h2
    cases r with
    | Transfer a b => exact absurd rfl (h1 a b)
    | Failure m => exact absurd rfl (h2 m)
    | Success => rfl
    | Sync d => rfl
    | Assets d => rfl
    | Genesis d => rfl

/-- Closed instantiation of `client_reply_discipline` across the
operations: an exact success payload, a backend failure message, a
mismatched shape, and the transfer artifact writes. -/
theorem client_reply_discipline_witness :
    Runtime.issueReply .Success = .ok () ∧
    Runtime.issueReply (.Failure "boom") = .error (.reply "boom") ∧
    Runtime.issueReply (.Sync [1]) = .error .unexpectedResponse ∧
    Runtime.syncReply (.Sync [2]) = .ok [2] ∧
    Runtime.assetsReply (.Genesis [3]) = .error .unexpectedResponse ∧
    Runtime.transferReply "cons.rgb" "tx.psbt" [] (.Transfer [9] ⟨[]⟩) =
      .ok (fsWrite (fsWrite [] "cons.rgb" (strictEncodeBytes [9])) "tx.psbt"
        (psbtConsensusEncode ⟨[]⟩)) :=
  ⟨(client_reply_discipline.1 .Success).mpr rfl,
    client_reply_discipline.2.1 "boom",
    client_reply_discipline.2.2.1 (.Sync [1]) (by decide)
      (fun m h => Reply.noConfusion h),
    (client_reply_discipline.2.2.2.1 (.Sync [2]) [2]).mpr rfl,
    client_reply_discipline.2.2.2.2.2.2.2.2.1 (.Genesis [3])
      (fun d h => Reply.noConfusion h) (fun m h => Reply.noConfusion h),
    client_reply_discipline.2.2.2.2.2.2.2.2.2.1 "cons.rgb" "tx.psbt" [] [9] ⟨[]⟩⟩

/-- C6: for every output of the template, if it carries key-derivation
metadata the loop injects the proprietary commitment key — namespace
tag `b"RGB"` (3 bytes), sub-type `PSBT_OUT_PUBKEY`, empty key data,
value the bytes of the first known public key — and emits no warning;
if it carries none, the output is left unchanged and the loop warns
for that index and proceeds (it never fails). -/
theorem transfer_commitment_key_injection (outs : List PsbtOutput) (i : Nat)
    (h : i < outs.length) :
    rgbTag.length = 3 ∧
    (transferProcessOutputs outs).length = outs.length ∧
    (∀ key, outs[i].hd_keypaths.head? = some key →
      (transferProcessOutputs outs).getD i ⟨[], []⟩ =
        insert_proprietary_key outs[i] rgbTag PSBT_OUT_PUBKEY [] key ∧
      ((rgbTag, PSBT_OUT_PUBKEY, ([] : List Nat)), key) ∈
        ((transferProcessOutputs outs).getD i ⟨[], []⟩).proprietary ∧
      i ∉ transferWarnings outs) ∧
    (outs[i].hd_keypaths = [] →
      (transferProcessOutputs outs).getD i ⟨[], []⟩ = outs[i] ∧
      i ∈ transferWarnings outs) := by
  have hlen : (transferProcessOutputs outs).length = outs.length := by
    simp [transferProcessOutputs]
  have hget : (transferProcessOutputs outs).getD i ⟨[], []⟩ =
      (commitmentKeyStep outs[i]).1 := by
    rw [List.getD_eq_getElem?_getD, List.getElem?_eq_getElem (by omega : i < (transferProcessOutputs outs).length)]
    simp [transferProcessOutputs]
  have hgetout : outs.getD i ⟨[], []⟩ = outs[i] := by
    rw [List.getD_eq_getElem?_getD, List.getElem?_eq_getElem h]
    rfl
  have hwarn : ∀ j, j ∈ transferWarnings outs ↔
      j < outs.length ∧ (outs.getD j ⟨[], []⟩).hd_keypaths.isEmpty = true := by
    intro j
    simp [transferWarnings, List.mem_filter, List.mem_range]
  refine ⟨rfl, hlen, ?_, ?_⟩
  · intro key hkey
    have hne : outs[i].hd_keypaths.isEmpty = false := by
      cases hcase : outs[i].hd_keypaths with
      | nil => rw [hcase] at hkey; cases hkey
      | cons a l => rfl
    have hstep : commitmentKeyStep outs[i] =
        (insert_proprietary_key outs[i] rgbTag PSBT_OUT_PUBKEY [] key, false) := by
      simp [commitmentKeyStep, hkey]
    refine ⟨by rw [hget, hstep], ?_, ?_⟩
    · rw [hget, hstep]
      simp [insert_proprietary_key]
    · rw [hwarn i]
      rintro ⟨-, hmem⟩
      rw [hgetout, hne] at hmem
      cases hmem
  · intro hempty
    have hstep : commitmentKeyStep outs[i] = (outs[i], true) := by
      simp [commitmentKeyStep, hempty]
    refine ⟨by rw [hget, hstep], ?_⟩
    rw [hwarn i]
    refine ⟨h, ?_⟩
    rw [hgetout, hempty]
    rfl

/-- Closed instantiation of `transfer_commitment_key_injection` on the
spec's end-to-end scenario: a two-output template, one output with
key-derivation metadata (commitment key injected, no warning) and one
without (unchanged, warned). -/
theorem transfer_commitment_key_injection_witness :
    ((transferProcessOutputs [⟨[[2, 3]], []⟩, ⟨[], []⟩]).getD 0 ⟨[], []⟩ =
      insert_proprietary_key ⟨[[2, 3]], []⟩ rgbTag PSBT_OUT_PUBKEY [] [2, 3]) ∧
    (0 : Nat) ∉ transferWarnings [⟨[[2, 3]], []⟩, ⟨[], []⟩] ∧
    ((transferProcessOutputs [⟨[[2, 3]], []⟩, ⟨[], []⟩]).getD 1 ⟨[], []⟩ =
      (⟨[], []⟩ : PsbtOutput)) ∧
    (1 : Nat) ∈ transferWarnings [⟨[[2, 3]], []⟩, ⟨[], []⟩] := by
  have h0 := transfer_commitment_key_injection [⟨[[2, 3]], []⟩, ⟨[], []⟩] 0 (by decide)
  have h1 := transfer_commitment_key_injection [⟨[[2, 3]], []⟩, ⟨[], []⟩] 1 (by decide)
  have hk := h0.2.2.1 [2, 3] rfl
  have hw := h1.2.2.2 rfl
  exact ⟨hk.1, hk.2.2, hw.1, hw.2⟩

/-- C8 (amended): with an address destination the transfer workflow
aborts via `unimplemented!()` — a panic, a distinct and non-silent
failure, though not a returned error value; with a concealed-seal
destination the seal reference is taken directly into the request's
single counterparty concealed allocation. -/
theorem transfer_destination_resolution (inputs : List OutPoint)
    (allocate : List Outcoins) (invoice : Invoice) (psbt : Psbt) :
    (∀ a, invoice.outpoint = .Address a →
      transferRequest inputs allocate invoice psbt =
        .error (.panic "not implemented")) ∧
    (∀ hsh, invoice.outpoint = .BlindedUtxo hsh →
      transferRequest inputs allocate invoice psbt = .ok
        { psbt := { outputs := transferProcessOutputs psbt.outputs }
          contract_id := invoice.contract_id
          inputs := inputs
          ours := allocate
          theirs := [⟨invoice.amount, hsh⟩] }) := by
  constructor
  · intro a ha
    simp [transferRequest, ha]
  · intro hsh hb
    simp [transferRequest, hb]

/-- C8 (counterexample): on a concrete address-destination invoice the
workflow's outcome is the `unimplemented!()` panic, not a returned
error value of any kind — in particular not an "unsupported destination
kind" error. -/
theorem transfer_address_destination_panics :
    transferRequest [] [] ⟨List.replicate 32 0, .Address "1BvBMSEYstWe", 5⟩ ⟨[]⟩ =
      .error (.panic "not implemented") ∧
    isErrOutcome
      (transferRequest [] [] ⟨List.replicate 32 0, .Address "1BvBMSEYstWe", 5⟩ ⟨[]⟩) =
      false :=
  ⟨rfl, rfl⟩

/-- Closed instantiation of `transfer_destination_resolution` in both
branches. -/
theorem transfer_destination_resolution_witness :
    transferRequest [] [] ⟨List.replicate 32 1, .Address "addr", 5⟩ ⟨[]⟩ =
      .error (.panic "not implemented") ∧
    transferRequest [] []
        ⟨List.replicate 32 1, .BlindedUtxo (List.replicate 64 'a'), 5⟩ ⟨[]⟩ =
      .ok { psbt := ⟨transferProcessOutputs []⟩
            contract_id := List.replicate 32 1
            inputs := []
            ours := []
            theirs := [⟨5, List.replicate 64 'a'⟩] } := by
  constructor
  · exact (transfer_destination_resolution [] []
      ⟨List.replicate 32 1, .Address "addr", 5⟩ ⟨[]⟩).1 "addr" rfl
  · exact (transfer_destination_resolution [] []
      ⟨List.replicate 32 1, .BlindedUtxo (List.replicate 64 'a'), 5⟩ ⟨[]⟩).2
      (List.replicate 64 'a') rfl

end RgbNode
